import Mathlib

/-!
Shallow embedding of `auyer/electrical-charges` (the ebiten demo in
`part_000`, package `main`).

Modelling conventions:
* Go pointers to `Sprite` are modelled by indices (`Nat`) into a `heap`
  list that only ever grows; the game's z-ordered slice `g.sprites`
  becomes a list of such indices.  Pointer equality is index equality.
* `float64` quantities are modelled exactly: `charge` as `ℚ`
  (so `+= 0.1` is an exact `+ 1/10`), the physics formulas over `ℝ`.
* ebiten input polling is modelled by an `Input` record handed to the
  per-frame callback; `rand.Intn` results are likewise inputs.
* Go runtime panics (slicing at index -1, dereferencing an absent heap
  entry) are modelled by `Option`: `none` is a crashed frame.
-/

namespace EC

/-- Model of an `ebiten.Image`: its size (`Image.Size()`) and the alpha
channel `At(x, y).A` as a total function (ebiten's `At` returns the zero
color outside the bitmap's bounds). -/
structure Image where
  width : Nat
  height : Nat
  alpha : Int → Int → Nat

/-- `fullScreenWidth = 800`. -/
def fullScreenWidth : Int := 800

/-- `fullScreenHeight = 600`. -/
def fullScreenHeight : Int := 600

/-- `screenWidth = fullScreenWidth`. -/
def screenWidth : Int := fullScreenWidth

/-- `screenHeight = fullScreenHeight * .9`; Go untyped-constant
arithmetic computes `600 * 0.9 = 540` exactly. -/
def screenHeight : Int := 540

/-- The `Sprite` struct: name, current bitmap, integer position, scalar
charge and the `chosen` flag. -/
structure Sprite where
  name : String
  image : Image
  x : Int
  y : Int
  charge : ℚ
  chosen : Bool

/-- `Sprite.In`: `(x, y)` hits the sprite iff the bitmap's alpha at the
point offset by the sprite position is positive. -/
def Sprite.In (s : Sprite) (x y : Int) : Bool :=
  decide (0 < s.image.alpha (x - s.x) (y - s.y))

/-- `Sprite.MoveBy`: add the displacement, then clamp `x` into
`[0, screenWidth - w]` and `y` into `[0, screenHeight - h]` by the four
sequential `if` statements of the source. -/
def Sprite.MoveBy (s : Sprite) (dx dy : Int) : Sprite :=
  let w : Int := s.image.width
  let h : Int := s.image.height
  let x1 := s.x + dx
  let x2 := if x1 < 0 then 0 else x1
  let x3 := if x2 > screenWidth - w then screenWidth - w else x2
  let y1 := s.y + dy
  let y2 := if y1 < 0 then 0 else y1
  let y3 := if y2 > screenHeight - h then screenHeight - h else y2
  { s with x := x3, y := y3 }

/-- A `StrokeSource` is the mouse or one touch id. -/
inductive StrokeSource where
  | mouse : StrokeSource
  | touch : Int → StrokeSource

/-- The `Stroke` struct.  `draggingObject` is the (possibly nil) sprite
pointer, modelled as an optional heap index. -/
structure Stroke where
  source : StrokeSource
  initX : Int
  initY : Int
  currentX : Int
  currentY : Int
  released : Bool
  draggingObject : Option Nat

/-- `NewStroke`: origin and current position both start at the device
position polled at pointer-down; Go zero values give `released = false`
and a nil `draggingObject`. -/
def NewStroke (source : StrokeSource) (pos : Int × Int) : Stroke :=
  { source := source, initX := pos.1, initY := pos.2,
    currentX := pos.1, currentY := pos.2,
    released := false, draggingObject := none }

/-- `Stroke.Update`, given this frame's polled `IsJustReleased` and
`Position` of the stroke's source. -/
def Stroke.Update (s : Stroke) (justReleased : Bool) (pos : Int × Int) : Stroke :=
  if s.released then s
  else if justReleased then { s with released := true }
  else { s with currentX := pos.1, currentY := pos.2 }

/-- `Stroke.PositionDiff`: current position minus the origin. -/
def Stroke.PositionDiff (s : Stroke) : Int × Int :=
  (s.currentX - s.initX, s.currentY - s.initY)

/-- The three decoded sprite bitmaps (`negativeImage`, `neutralImage`,
`positiveImage`); their pixel data comes from bundled PNG assets, so the
development is parametrised over them. -/
structure Assets where
  negativeImage : Image
  neutralImage : Image
  positiveImage : Image

/-- The `Game` struct.  The `strokes` map (an unordered set of stroke
pointers) is modelled as a list of stroke values; the render-only
`Font` field is omitted. -/
structure Game where
  heap : List Sprite
  sprites : List Nat
  strokes : List Stroke
  ChosenSprite : Option Nat

/-- One frame's polled input state: the ebiten/inpututil queries made by
`Game.update`, plus the two `rand.Intn` draws used by the add-sprite
branch and the `IsDrawingSkipped` flag. -/
structure Input where
  mousePressed : Bool
  mousePos : Int × Int
  mouseJustReleased : Bool
  touchPressed : List Int
  touchPos : Int → Int × Int
  touchJustReleased : Int → Bool
  keyA : Bool
  keyP : Bool
  keyN : Bool
  keyUp : Bool
  keyDown : Bool
  keyRight : Bool
  keyLeft : Bool
  newX : Int
  newY : Int
  drawingSkipped : Bool

/-- This frame's `IsJustReleased` for a stroke's source. -/
def sampleReleased (inp : Input) : StrokeSource → Bool
  | .mouse => inp.mouseJustReleased
  | .touch id => inp.touchJustReleased id

/-- This frame's `Position` for a stroke's source. -/
def samplePos (inp : Input) : StrokeSource → Int × Int
  | .mouse => inp.mousePos
  | .touch id => inp.touchPos id

/-- Heap update through a sprite pointer: apply `f` to entry `i` when it
exists. -/
def setAt (l : List Sprite) (i : Nat) (f : Sprite → Sprite) : List Sprite :=
  match l[i]? with
  | some s => l.set i (f s)
  | none => l

/-- The `chosen` flag of heap entry `j` (false for an absent entry). -/
def heapFlag (l : List Sprite) (j : Nat) : Bool :=
  match l[j]? with
  | some s => s.chosen
  | none => false

/-- The loop body of `for _, s := range g.sprites { if s.chosen { … } }`:
one pointer dereference and conditional in-place mutation. -/
def chooseStep (f : Sprite → Sprite) (heap : List Sprite) (id : Nat) : List Sprite :=
  match heap[id]? with
  | some s => if s.chosen then heap.set id (f s) else heap
  | none => heap

/-- The chosen-only mutation loops of `Game.update` (charge adjustment
and arrow-key nudges): iterate the z-order list, mutating each sprite
whose `chosen` flag is set. -/
def Game.mapChosen (g : Game) (f : Sprite → Sprite) : Game :=
  { g with heap := g.sprites.foldl (chooseStep f) g.heap }

/-- The `s.chosen = false` loop run at pointer-down: clear the flag of
every sprite in the z-order list. -/
def unchooseAll (heap : List Sprite) (ids : List Nat) : List Sprite :=
  ids.foldl (fun h id => setAt h id (fun s => { s with chosen := false })) heap

/-- The body of `Game.spriteAt`'s loop test: dereference the sprite
pointer `id` and call `Sprite.In`. -/
def Game.spriteInAt (g : Game) (id : Nat) (x y : Int) : Bool :=
  match g.heap[id]? with
  | some s => s.In x y
  | none => false

/-- `Game.spriteAt`: scan the z-order list from front (last) to back and
return the first hit, else nil. -/
def Game.spriteAt (g : Game) (x y : Int) : Option Nat :=
  g.sprites.reverse.find? (fun id => g.spriteInAt id x y)

/-- The common body of the mouse and touch pointer-down branches of
`Game.update`: make a stroke at the device position, attach
`spriteAt` of that position, add the stroke to the set, clear every
`chosen` flag, set the hit sprite's flag and record it in
`ChosenSprite`. -/
def Game.handlePress (g : Game) (source : StrokeSource) (pos : Int × Int) : Game :=
  let st0 := NewStroke source pos
  let sp := g.spriteAt st0.currentX st0.currentY
  let st := { st0 with draggingObject := sp }
  let g1 := { g with strokes := g.strokes ++ [st] }
  let g2 := { g1 with heap := unchooseAll g1.heap g1.sprites }
  let g3 := match sp with
    | some id => { g2 with heap := setAt g2.heap id (fun s => { s with chosen := true }) }
    | none => g2
  { g3 with ChosenSprite := sp }

/-- The `KeyA` branch: append a fresh neutral sprite named after the
current list length, at a random position. -/
def Game.addSprite (g : Game) (A : Assets) (nx ny : Int) : Game :=
  let s : Sprite := { name := "Q" ++ toString g.sprites.length,
                      image := A.neutralImage,
                      x := nx, y := ny, charge := 0, chosen := false }
  { g with heap := g.heap ++ [s], sprites := g.sprites ++ [g.heap.length] }

/-- The `stroke.Update()` call made by `Game.updateStroke`: one
per-frame update of a stroke with its own source's polled input. -/
def strokeStep (st : Stroke) (inp : Input) : Stroke :=
  st.Update (sampleReleased inp st.source) (samplePos inp st.source)

/-- `Game.updateStroke`, given this frame's input.  Returns the updated
game and stroke, or `none` where Go would panic (absent heap entry, or
the dragged sprite missing from the z-order list, which makes the
`index = -1` slice expression panic). -/
def Game.updateStroke (g : Game) (st : Stroke) (inp : Input) : Option (Game × Stroke) :=
  let st1 := strokeStep st inp
  if st1.released = false then some (g, st1)
  else
    match st1.draggingObject with
    | none => some (g, st1)
    | some id =>
      match g.heap[id]? with
      | none => none
      | some s =>
        let d := st1.PositionDiff
        let g2 := { g with heap := g.heap.set id (s.MoveBy d.1 d.2) }
        let idx := g2.sprites.indexOf id
        if idx < g2.sprites.length then
          some ({ g2 with sprites := g2.sprites.eraseIdx idx ++ [id] },
                { st1 with draggingObject := none })
        else none

/-- The `for s := range g.strokes` loop: update every stroke, keep the
ones not released, commit the released ones.  `acc` collects the kept
strokes. -/
def runStrokes (inp : Input) : Game → List Stroke → List Stroke → Option Game
  | g, [], acc => some { g with strokes := acc }
  | g, st :: rest, acc =>
    match g.updateStroke st inp with
    | none => none
    | some (g2, st2) =>
      if st2.released then runStrokes inp g2 rest acc
      else runStrokes inp g2 rest (acc ++ [st2])

/-- Process the whole stroke set of the game. -/
def Game.processStrokes (g : Game) (inp : Input) : Option Game :=
  runStrokes inp g g.strokes []

/-- The sprites currently attached to a live stroke (the
`draggingSprites` set built in the draw section). -/
def draggingIds (strokes : List Stroke) : List Nat :=
  strokes.filterMap (fun st => st.draggingObject)

/-- The image chosen by the `switch` on the charge's sign. -/
def imageFor (A : Assets) (c : ℚ) : Image :=
  if c > 0 then A.positiveImage
  else if c < 0 then A.negativeImage
  else A.neutralImage

/-- The draw section's only state change: reassign each non-dragged
sprite's image according to the sign of its charge. -/
def Game.refreshImages (g : Game) (A : Assets) : Game :=
  { g with heap := g.sprites.foldl (fun heap id =>
      if id ∈ draggingIds g.strokes then heap
      else setAt heap id (fun s => { s with image := imageFor A s.charge })) g.heap }

/-- The two pointer-down blocks of `Game.update` (the
`IsMouseButtonJustPressed` branch, then the loop over
`JustPressedTouchIDs`). -/
def Game.pressEvents (g : Game) (inp : Input) : Game :=
  let g1 := if inp.mousePressed then g.handlePress .mouse inp.mousePos else g
  inp.touchPressed.foldl
    (fun gg id => gg.handlePress (.touch id) (inp.touchPos id)) g1

/-- The six `IsKeyJustPressed` blocks of `Game.update`, in source
order: `KeyA` add, `KeyP`/`KeyN` charge adjustment by `±0.1`, then the
four arrow-key nudges by a tenth of the screen size, applied to the
chosen sprites without any bounds clamping. -/
def Game.keyEvents (g : Game) (A : Assets) (inp : Input) : Game :=
  let g3 := if inp.keyA then g.addSprite A inp.newX inp.newY else g
  let g4 := if inp.keyP then g3.mapChosen (fun s => { s with charge := s.charge + 1/10 }) else g3
  let g5 := if inp.keyN then g4.mapChosen (fun s => { s with charge := s.charge - 1/10 }) else g4
  let g6 := if inp.keyUp then g5.mapChosen (fun s => { s with y := s.y - screenHeight / 10 }) else g5
  let g7 := if inp.keyDown then g6.mapChosen (fun s => { s with y := s.y + screenHeight / 10 }) else g6
  let g8 := if inp.keyRight then g7.mapChosen (fun s => { s with x := s.x + screenWidth / 10 }) else g7
  if inp.keyLeft then g8.mapChosen (fun s => { s with x := s.x - screenWidth / 10 }) else g8

/-- `Game.update`: one frame of the per-frame callback, in source
order: mouse press, touch presses, the six key blocks, the stroke
loop, then (unless drawing is skipped) the image refresh of the draw
section. -/
def Game.update (g : Game) (A : Assets) (inp : Input) : Option Game :=
  match ((g.pressEvents inp).keyEvents A inp).processStrokes inp with
  | none => none
  | some gA => some (if inp.drawingSkipped then gA else gA.refreshImages A)

/-- The `init` function's game state: two neutral sprites `Q0`, `Q1` at
positions drawn from `rand.Intn`, an empty stroke set and no chosen
sprite. -/
def initGame (A : Assets) (x0 y0 x1 y1 : Int) : Game :=
  { heap := [ { name := "Q0", image := A.neutralImage, x := x0, y := y0,
                charge := 0, chosen := false },
              { name := "Q1", image := A.neutralImage, x := x1, y := y1,
                charge := 0, chosen := false } ],
    sprites := [0, 1], strokes := [], ChosenSprite := none }

/-- Frame-step reachability from the initial state (ranging over the
random initial positions and all per-frame inputs). -/
inductive Reachable (A : Assets) : Game → Prop where
  | start : ∀ x0 y0 x1 y1, Reachable A (initGame A x0 y0 x1 y1)
  | step : ∀ g inp g', Reachable A g → g.update A inp = some g' → Reachable A g'

/-- The Coulomb constant `k = 0.000000009` of the source, as an exact
real. -/
noncomputable def k : ℝ := 9 / 1000000000

/-- `distance`: Euclidean distance of the two sprite positions, divided
by the fixed unit-scale 100 (`float64` arithmetic modelled over `ℝ`). -/
noncomputable def distance (particle1 particle2 : Sprite) : ℝ :=
  let deltaX : ℝ := (particle1.x - particle2.x : Int)
  let deltaY : ℝ := (particle1.y - particle2.y : Int)
  Real.sqrt (deltaX * deltaX + deltaY * deltaY) / 100

/-- `force`: Coulomb force magnitude; the division by `d * d` is
unguarded. -/
noncomputable def force (particle1 particle2 : Sprite) : ℝ :=
  let d := distance particle1 particle2
  k * ((particle1.charge : ℝ) * (particle2.charge : ℝ)) / (d * d)

/-- `field`: field magnitude at a radius; the division is unguarded. -/
noncomputable def field (charge : ℝ) (radius : ℝ) : ℝ :=
  k * charge / (radius * radius)

/-- `math.Atan2` on finite inputs (signed zeroes are not modelled:
`atan2 0 0 = 0`). -/
noncomputable def atan2 (y x : ℝ) : ℝ :=
  if 0 < x then Real.arctan (y / x)
  else if x < 0 then
    (if 0 ≤ y then Real.arctan (y / x) + Real.pi else Real.arctan (y / x) - Real.pi)
  else if 0 < y then Real.pi / 2
  else if y < 0 then -(Real.pi / 2)
  else 0

/-- `angle`: bearing angle between the two sprites. -/
noncomputable def angle (particle1 particle2 : Sprite) : ℝ :=
  atan2 ((particle1.y - particle2.y : Int) : ℝ) ((particle1.x - particle2.x : Int) : ℝ)

/-- `midPoint`: componentwise average with Go's truncated integer
division. -/
def midPoint (particle1 particle2 : Sprite) : Int × Int :=
  (Int.tdiv (particle1.x + particle2.x) 2, Int.tdiv (particle1.y + particle2.y) 2)

/-- Well-formedness tying the pointer heap to the z-order list: the list
holds exactly the valid sprite pointers, each once.  (In Go this is
automatic: the slice holds every `*Sprite` ever allocated.) -/
def WF (g : Game) : Prop :=
  (∀ id ∈ g.sprites, id < g.heap.length) ∧
  (∀ i < g.heap.length, i ∈ g.sprites) ∧
  g.sprites.Nodup

/-- The sprites of the z-order list whose `chosen` flag is set. -/
def chosenIds (g : Game) : List Nat :=
  g.sprites.filter (fun id => heapFlag g.heap id)

/-- The chosen-sprite invariant: at most one sprite of the list is
flagged `chosen`, and that sprite (or nil) is `Game.ChosenSprite`. -/
def ChosenInv (g : Game) : Prop :=
  (chosenIds g).length ≤ 1 ∧
  match g.ChosenSprite with
  | none => chosenIds g = []
  | some c => chosenIds g = [c]

/-- A stroke after a sequence of per-frame `Stroke.Update` calls, each
with that frame's polled (released, position) sample. -/
def applyUpdates (st : Stroke) (samples : List (Bool × Int × Int)) : Stroke :=
  samples.foldl (fun t u => t.Update u.1 (u.2.1, u.2.2)) st

/-- A frame input where only (some of) the six mutation keys are
pressed, no pointer event occurs and drawing is skipped. -/
def pressOnly (p n u d r l : Bool) : Input :=
  { mousePressed := false, mousePos := (0, 0), mouseJustReleased := false,
    touchPressed := [], touchPos := fun _ => (0, 0),
    touchJustReleased := fun _ => false,
    keyA := false, keyP := p, keyN := n,
    keyUp := u, keyDown := d, keyRight := r, keyLeft := l,
    newX := 0, newY := 0, drawingSkipped := true }

/-- A concrete 50×50 test bitmap, fully opaque inside its bounds. -/
def imgW : Image :=
  { width := 50, height := 50,
    alpha := fun x y => if 0 ≤ x ∧ x < 50 ∧ 0 ≤ y ∧ y < 50 then 255 else 0 }

/-- Concrete test assets. -/
def assetsW : Assets :=
  { negativeImage := imgW, neutralImage := imgW, positiveImage := imgW }

/-- A concrete chosen sprite at the origin. -/
def s0W : Sprite :=
  { name := "Q0", image := imgW, x := 0, y := 0, charge := 0, chosen := true }

/-- A concrete unchosen sprite away from the origin. -/
def s1W : Sprite :=
  { name := "Q1", image := imgW, x := 100, y := 100, charge := 0, chosen := false }

/-- A concrete game with two sprites, no strokes, sprite 0 chosen. -/
def gW : Game :=
  { heap := [s0W, s1W], sprites := [0, 1], strokes := [], ChosenSprite := some 0 }

/-- A concrete stroke already released, dragging sprite 0, whose drag
moved the pointer from (10, 10) to (30, 40). -/
def stW : Stroke :=
  { source := .mouse, initX := 10, initY := 10, currentX := 30, currentY := 40,
    released := true, draggingObject := some 0 }

/-- A concrete all-idle frame input. -/
def inpW : Input := pressOnly false false false false false false

/-! ### Basic heap lemmas -/

theorem length_setAt (l : List Sprite) (i : Nat) (f : Sprite → Sprite) :
    (setAt l i f).length = l.length := by
  unfold setAt
  cases h : l[i]? with
  | none => rfl
  | some s => exact List.length_set l i (f s)

theorem getElem?_setAt (l : List Sprite) (i : Nat) (f : Sprite → Sprite) (j : Nat) :
    (setAt l i f)[j]? = if i = j then l[j]?.map f else l[j]? := by
  unfold setAt
  cases h : l[i]? with
  | none =>
    by_cases hij : i = j
    · subst hij; simp [h]
    · simp [hij]
  | some s =>
    by_cases hij : i = j
    · subst hij
      simp [List.getElem?_set_self', h]
    · rw [List.getElem?_set_ne hij]
      simp [hij]

theorem heapFlag_setAt (l : List Sprite) (i : Nat) (f : Sprite → Sprite) (j : Nat)
    (hf : ∀ s, (f s).chosen = s.chosen) :
    heapFlag (setAt l i f) j = heapFlag l j := by
  unfold heapFlag
  rw [getElem?_setAt]
  by_cases hij : i = j
  · subst hij
    cases l[i]? with
    | none => simp
    | some s => simp [hf]
  · simp [hij]

/-! ### Generic fold lemmas over the heap -/

theorem foldl_length (step : List Sprite → Nat → List Sprite)
    (h : ∀ heap id, (step heap id).length = heap.length) :
    ∀ (ids : List Nat) (heap : List Sprite), (ids.foldl step heap).length = heap.length := by
  intro ids
  induction ids with
  | nil => intro heap; rfl
  | cons a t ih => intro heap; rw [List.foldl_cons, ih, h]

theorem foldl_heapFlag (step : List Sprite → Nat → List Sprite)
    (h : ∀ heap id j, heapFlag (step heap id) j = heapFlag heap j) :
    ∀ (ids : List Nat) (heap : List Sprite) (j : Nat),
      heapFlag (ids.foldl step heap) j = heapFlag heap j := by
  intro ids
  induction ids with
  | nil => intro heap j; rfl
  | cons a t ih => intro heap j; rw [List.foldl_cons, ih, h]

theorem foldl_getElem?_not_mem (step : List Sprite → Nat → List Sprite)
    (h : ∀ heap id j, j ≠ id → (step heap id)[j]? = heap[j]?) :
    ∀ (ids : List Nat) (heap : List Sprite) (j : Nat), j ∉ ids →
      (ids.foldl step heap)[j]? = heap[j]? := by
  intro ids
  induction ids with
  | nil => intro heap j _; rfl
  | cons a t ih =>
    intro heap j hj
    rw [List.foldl_cons, ih _ _ (fun hm => hj (List.mem_cons_of_mem a hm)),
      h _ _ _ (fun he => hj (by rw [he]; exact List.mem_cons_self a t))]

/-! ### `unchooseAll` lemmas -/

theorem unchooseAll_length (heap : List Sprite) (ids : List Nat) :
    (unchooseAll heap ids).length = heap.length :=
  foldl_length _ (fun heap id => length_setAt heap id _) ids heap

theorem unchooseAll_getElem?_not_mem (heap : List Sprite) (ids : List Nat) (j : Nat)
    (hj : j ∉ ids) : (unchooseAll heap ids)[j]? = heap[j]? := by
  refine foldl_getElem?_not_mem _ ?_ ids heap j hj
  intro heap id j hji
  rw [getElem?_setAt, if_neg (fun h => hji h.symm)]

theorem unchooseAll_getElem?_mem (heap : List Sprite) (ids : List Nat) (j : Nat)
    (hj : j ∈ ids) :
    (unchooseAll heap ids)[j]? = heap[j]?.map (fun s => { s with chosen := false }) := by
  induction ids generalizing heap with
  | nil => cases hj
  | cons a t ih =>
    rw [unchooseAll, List.foldl_cons]
    by_cases hjt : j ∈ t
    · rw [← unchooseAll, ih _ hjt, getElem?_setAt]
      by_cases hja : a = j
      · subst hja
        rw [if_pos rfl]
        cases heap[a]? with
        | none => rfl
        | some s => rfl
      · rw [if_neg hja]
    · have hja : j = a := by
        rcases List.mem_cons.mp hj with h | h
        · exact h
        · exact absurd h hjt
      subst hja
      rw [← unchooseAll, unchooseAll_getElem?_not_mem _ _ _ hjt, getElem?_setAt]
      simp

theorem unchooseAll_flag_false (heap : List Sprite) (ids : List Nat) (j : Nat)
    (hj : j ∈ ids) : heapFlag (unchooseAll heap ids) j = false := by
  rw [heapFlag, unchooseAll_getElem?_mem heap ids j hj]
  cases heap[j]? with
  | none => rfl
  | some s => rfl

/-! ### `mapChosen` lemmas -/

theorem chooseStep_length (f : Sprite → Sprite) (heap : List Sprite) (id : Nat) :
    (chooseStep f heap id).length = heap.length := by
  unfold chooseStep
  cases heap[id]? with
  | none => rfl
  | some s =>
    by_cases hc : s.chosen = true
    · simp [hc, List.length_set]
    · simp [hc]

theorem chooseStep_getElem?_ne (f : Sprite → Sprite) (heap : List Sprite) (id j : Nat)
    (hj : j ≠ id) : (chooseStep f heap id)[j]? = heap[j]? := by
  unfold chooseStep
  cases heap[id]? with
  | none => rfl
  | some s =>
    by_cases hc : s.chosen = true
    · simp [hc, List.getElem?_set_ne (fun h => hj h.symm)]
    · simp [hc]

theorem chooseStep_flag (f : Sprite → Sprite) (hf : ∀ s, (f s).chosen = s.chosen)
    (heap : List Sprite) (id j : Nat) :
    heapFlag (chooseStep f heap id) j = heapFlag heap j := by
  unfold chooseStep
  cases h : heap[id]? with
  | none => rfl
  | some s =>
    by_cases hc : s.chosen = true
    · simp only [hc, if_pos]
      unfold heapFlag
      by_cases hij : id = j
      · subst hij
        simp [List.getElem?_set_self', h, hf]
      · rw [List.getElem?_set_ne hij]
    · simp [hc]

theorem foldl_chooseStep_not_mem (f : Sprite → Sprite) (ids : List Nat)
    (heap : List Sprite) (j : Nat) (hj : j ∉ ids) :
    (ids.foldl (chooseStep f) heap)[j]? = heap[j]? :=
  foldl_getElem?_not_mem _ (fun heap id j hji => chooseStep_getElem?_ne f heap id j hji)
    ids heap j hj

theorem foldl_chooseStep_mem (f : Sprite → Sprite) (ids : List Nat)
    (heap : List Sprite) (j : Nat) (hnd : ids.Nodup) (hj : j ∈ ids) :
    (ids.foldl (chooseStep f) heap)[j]? =
      heap[j]?.map (fun s => if s.chosen then f s else s) := by
  induction ids generalizing heap with
  | nil => cases hj
  | cons a t ih =>
    rw [List.foldl_cons]
    have hand := List.nodup_cons.mp hnd
    by_cases hja : j = a
    · subst hja
      rw [foldl_chooseStep_not_mem f t _ j hand.1]
      unfold chooseStep
      cases h : heap[j]? with
      | none => exact h
      | some s =>
        by_cases hc : s.chosen = true
        · simp [hc, List.getElem?_set_self', h]
        · simp [hc, h]
    · have hjt : j ∈ t := by
        rcases List.mem_cons.mp hj with h | h
        · exact absurd h hja
        · exact h
      rw [ih _ hand.2 hjt, chooseStep_getElem?_ne f heap a j hja]

theorem mapChosen_sprites (g : Game) (f : Sprite → Sprite) :
    (g.mapChosen f).sprites = g.sprites := rfl

theorem mapChosen_strokes (g : Game) (f : Sprite → Sprite) :
    (g.mapChosen f).strokes = g.strokes := rfl

theorem mapChosen_ChosenSprite (g : Game) (f : Sprite → Sprite) :
    (g.mapChosen f).ChosenSprite = g.ChosenSprite := rfl

theorem mapChosen_heapLength (g : Game) (f : Sprite → Sprite) :
    (g.mapChosen f).heap.length = g.heap.length :=
  foldl_length _ (chooseStep_length f) g.sprites g.heap

theorem mapChosen_flag (g : Game) (f : Sprite → Sprite)
    (hf : ∀ s, (f s).chosen = s.chosen) (j : Nat) :
    heapFlag (g.mapChosen f).heap j = heapFlag g.heap j :=
  foldl_heapFlag _ (chooseStep_flag f hf) g.sprites g.heap j

/-! ### `find?` and `filter` helpers -/

theorem find?_split {α : Type} (p : α → Bool) (l : List α) (a : α)
    (h : l.find? p = some a) :
    ∃ l1 l2, l = l1 ++ a :: l2 ∧ ∀ x ∈ l1, p x = false := by
  induction l with
  | nil => cases h
  | cons b t ih =>
    by_cases hb : p b = true
    · rw [List.find?_cons_of_pos _ hb] at h
      cases h
      exact ⟨[], t, rfl, by intro x hx; cases hx⟩
    · have hb' : p b = false := by
        cases hpb : p b
        · rfl
        · exact absurd hpb hb
      rw [List.find?_cons_of_neg _ (by simp [hb'])] at h
      obtain ⟨l1, l2, hsplit, hall⟩ := ih h
      refine ⟨b :: l1, l2, by rw [hsplit]; rfl, ?_⟩
      intro x hx
      rcases List.mem_cons.mp hx with h | h
      · subst h; exact hb'
      · exact hall x h

theorem filter_eq_singleton (p : Nat → Bool) (l : List Nat) (a : Nat)
    (hnd : l.Nodup) (ha : a ∈ l) (hp : ∀ x ∈ l, (p x = true ↔ x = a)) :
    l.filter p = [a] := by
  induction l with
  | nil => cases ha
  | cons b t ih =>
    have hand := List.nodup_cons.mp hnd
    by_cases hab : b = a
    · subst hab
      have hpb : p b = true := (hp b (List.mem_cons_self b t)).mpr rfl
      rw [List.filter_cons, if_pos hpb]
      have : t.filter p = [] := by
        rw [List.filter_eq_nil_iff]
        intro x hx hpx
        exact hand.1 (((hp x (List.mem_cons_of_mem b hx)).mp hpx) ▸ hx)
      rw [this]
    · have hpb : p b = false := by
        cases hpb : p b
        · rfl
        · exact absurd ((hp b (List.mem_cons_self b t)).mp hpb) hab
      rw [List.filter_cons, if_neg (by simp [hpb])]
      have hat : a ∈ t := by
        rcases List.mem_cons.mp ha with h | h
        · exact absurd h.symm hab
        · exact h
      exact ih hand.2 hat (fun x hx => hp x (List.mem_cons_of_mem b hx))

/-! ### `spriteAt` lemmas -/

theorem spriteAt_mem {g : Game} {x y : Int} {id : Nat} (h : g.spriteAt x y = some id) :
    id ∈ g.sprites :=
  List.mem_reverse.mp (List.mem_of_find?_eq_some h)

theorem spriteAt_hit {g : Game} {x y : Int} {id : Nat} (h : g.spriteAt x y = some id) :
    g.spriteInAt id x y = true := by
  rw [Game.spriteAt] at h
  simpa using List.find?_some h

theorem spriteInAt_lt {g : Game} {x y : Int} {id : Nat}
    (h : g.spriteInAt id x y = true) : id < g.heap.length := by
  by_contra hge
  rw [Game.spriteInAt, List.getElem?_eq_none (Nat.le_of_not_lt hge)] at h
  cases h

/-! ### invariant transport -/

theorem chosenInv_transport (g g' : Game)
    (hperm : g'.sprites.Perm g.sprites)
    (hflag : ∀ j, heapFlag g'.heap j = heapFlag g.heap j)
    (hcs : g'.ChosenSprite = g.ChosenSprite)
    (h : ChosenInv g) : ChosenInv g' := by
  have hperm2 : (chosenIds g').Perm (chosenIds g) := by
    unfold chosenIds
    rw [List.filter_congr (fun x _ => hflag x)]
    exact hperm.filter _
  obtain ⟨hlen, hmatch⟩ := h
  refine ⟨by rw [hperm2.length_eq]; exact hlen, ?_⟩
  rw [hcs]
  cases hc : g.ChosenSprite with
  | none =>
    rw [hc] at hmatch
    exact (hmatch ▸ hperm2).eq_nil
  | some c =>
    rw [hc] at hmatch
    exact List.perm_singleton.mp (hmatch ▸ hperm2)

theorem wf_transport (g g' : Game) (hs : g'.sprites = g.sprites)
    (hl : g'.heap.length = g.heap.length) (h : WF g) : WF g' := by
  rw [WF, hs, hl]
  exact h

/-! ### field-preservation facts -/

theorem MoveBy_chosen (s : Sprite) (dx dy : Int) : (s.MoveBy dx dy).chosen = s.chosen := rfl

theorem MoveBy_charge (s : Sprite) (dx dy : Int) : (s.MoveBy dx dy).charge = s.charge := rfl

theorem update_draggingObject (st : Stroke) (b : Bool) (p : Int × Int) :
    (st.Update b p).draggingObject = st.draggingObject := by
  rw [Stroke.Update]
  split
  · rfl
  · split <;> rfl

theorem update_initX (st : Stroke) (b : Bool) (p : Int × Int) :
    (st.Update b p).initX = st.initX := by
  rw [Stroke.Update]
  split
  · rfl
  · split <;> rfl

theorem update_initY (st : Stroke) (b : Bool) (p : Int × Int) :
    (st.Update b p).initY = st.initY := by
  rw [Stroke.Update]
  split
  · rfl
  · split <;> rfl

/-! ### `handlePress` lemmas -/

theorem handlePress_def (g : Game) (src : StrokeSource) (pos : Int × Int) :
    g.handlePress src pos =
      { heap := (match g.spriteAt pos.1 pos.2 with
                 | some id => setAt (unchooseAll g.heap g.sprites) id
                     (fun s => { s with chosen := true })
                 | none => unchooseAll g.heap g.sprites),
        sprites := g.sprites,
        strokes := g.strokes ++
          [{ NewStroke src pos with draggingObject := g.spriteAt pos.1 pos.2 }],
        ChosenSprite := g.spriteAt pos.1 pos.2 } := by
  cases hsp : g.spriteAt pos.1 pos.2 with
  | none => simp [Game.handlePress, NewStroke, hsp]
  | some id => simp [Game.handlePress, NewStroke, hsp]

theorem handlePress_sprites (g : Game) (src : StrokeSource) (pos : Int × Int) :
    (g.handlePress src pos).sprites = g.sprites := by
  rw [handlePress_def]

theorem handlePress_heapLength (g : Game) (src : StrokeSource) (pos : Int × Int) :
    (g.handlePress src pos).heap.length = g.heap.length := by
  rw [handlePress_def]
  cases g.spriteAt pos.1 pos.2 with
  | none => exact unchooseAll_length g.heap g.sprites
  | some id => rw [length_setAt]; exact unchooseAll_length g.heap g.sprites

theorem chosenInv_of_nil (g : Game) (hcs : g.ChosenSprite = none)
    (hids : chosenIds g = []) : ChosenInv g := by
  refine ⟨by rw [hids]; decide, ?_⟩
  rw [hcs]
  exact hids

theorem chosenInv_of_single (g : Game) (c : Nat) (hcs : g.ChosenSprite = some c)
    (hids : chosenIds g = [c]) : ChosenInv g := by
  refine ⟨by rw [hids]; simp, ?_⟩
  rw [hcs]
  exact hids

theorem heapFlag_def (l : List Sprite) (j : Nat) :
    heapFlag l j = (l[j]?.map Sprite.chosen).getD false := by
  unfold heapFlag
  cases l[j]? <;> rfl

theorem handlePress_WF (g : Game) (src : StrokeSource) (pos : Int × Int)
    (h : WF g) : WF (g.handlePress src pos) :=
  wf_transport g _ (handlePress_sprites g src pos) (handlePress_heapLength g src pos) h

theorem handlePress_inv (g : Game) (src : StrokeSource) (pos : Int × Int)
    (hWF : WF g) : ChosenInv (g.handlePress src pos) := by
  rw [handlePress_def]
  cases hsp : g.spriteAt pos.1 pos.2 with
  | none =>
    apply chosenInv_of_nil _ rfl
    show g.sprites.filter (fun id => heapFlag (unchooseAll g.heap g.sprites) id) = []
    rw [List.filter_eq_nil_iff]
    intro id hid
    show ¬ (heapFlag (unchooseAll g.heap g.sprites) id = true)
    rw [unchooseAll_flag_false g.heap g.sprites id hid]
    simp
  | some c =>
    have hmem : c ∈ g.sprites := spriteAt_mem hsp
    have hlt : c < g.heap.length := hWF.1 c hmem
    have hlt2 : c < (unchooseAll g.heap g.sprites).length := by
      rw [unchooseAll_length]; exact hlt
    have hflags : ∀ j ∈ g.sprites,
        ((fun id => heapFlag (setAt (unchooseAll g.heap g.sprites) c
          (fun s => { s with chosen := true })) id) j = true ↔ j = c) := by
      intro j hj
      show heapFlag (setAt (unchooseAll g.heap g.sprites) c
        (fun s => { s with chosen := true })) j = true ↔ j = c
      by_cases hjc : j = c
      · subst hjc
        rw [heapFlag_def, getElem?_setAt, if_pos rfl,
          List.getElem?_eq_getElem hlt2]
        simp
      · rw [heapFlag_def, getElem?_setAt, if_neg (fun h => hjc h.symm), ← heapFlag_def,
          unchooseAll_flag_false g.heap g.sprites j hj]
        simp [hjc]
    apply chosenInv_of_single _ c rfl
    show g.sprites.filter (fun id => heapFlag (setAt (unchooseAll g.heap g.sprites) c
      (fun s => { s with chosen := true })) id) = [c]
    exact filter_eq_singleton _ _ c hWF.2.2 hmem hflags

/-! ### `addSprite` lemmas -/

theorem addSprite_sprites (g : Game) (A : Assets) (nx ny : Int) :
    (g.addSprite A nx ny).sprites = g.sprites ++ [g.heap.length] := rfl

theorem addSprite_strokes (g : Game) (A : Assets) (nx ny : Int) :
    (g.addSprite A nx ny).strokes = g.strokes := rfl

theorem addSprite_ChosenSprite (g : Game) (A : Assets) (nx ny : Int) :
    (g.addSprite A nx ny).ChosenSprite = g.ChosenSprite := rfl

theorem addSprite_heapLength (g : Game) (A : Assets) (nx ny : Int) :
    (g.addSprite A nx ny).heap.length = g.heap.length + 1 := by
  show (g.heap ++ [_]).length = g.heap.length + 1
  rw [List.length_append]
  rfl

theorem addSprite_WF (g : Game) (A : Assets) (nx ny : Int)
    (h : WF g) : WF (g.addSprite A nx ny) := by
  obtain ⟨hvalid, hfull, hnd⟩ := h
  refine ⟨?_, ?_, ?_⟩
  · intro id hid
    rw [addSprite_sprites] at hid
    rw [addSprite_heapLength]
    rcases List.mem_append.mp hid with h | h
    · exact Nat.lt_succ_of_lt (hvalid id h)
    · rw [List.mem_singleton.mp h]
      exact Nat.lt_succ_self _
  · intro i hi
    rw [addSprite_heapLength] at hi
    rw [addSprite_sprites]
    rcases Nat.lt_succ_iff_lt_or_eq.mp hi with h | h
    · exact List.mem_append_left _ (hfull i h)
    · rw [h]
      exact List.mem_append_right _ (List.mem_singleton_self _)
  · rw [addSprite_sprites, List.nodup_append]
    refine ⟨hnd, List.nodup_singleton _, ?_⟩
    intro a ha hb
    rw [List.mem_singleton.mp hb] at ha
    exact Nat.lt_irrefl _ (hvalid _ ha)

theorem addSprite_flag_old (g : Game) (A : Assets) (nx ny : Int) (j : Nat)
    (hj : j < g.heap.length) :
    heapFlag (g.addSprite A nx ny).heap j = heapFlag g.heap j := by
  show heapFlag (g.heap ++ [_]) j = heapFlag g.heap j
  rw [heapFlag_def, heapFlag_def, List.getElem?_append_left hj]

theorem addSprite_flag_new (g : Game) (A : Assets) (nx ny : Int) :
    heapFlag (g.addSprite A nx ny).heap g.heap.length = false := by
  show heapFlag (g.heap ++ [_]) g.heap.length = false
  rw [heapFlag_def, List.getElem?_concat_length]
  rfl

theorem addSprite_chosenIds (g : Game) (A : Assets) (nx ny : Int)
    (hWF : WF g) : chosenIds (g.addSprite A nx ny) = chosenIds g := by
  unfold chosenIds
  rw [addSprite_sprites, List.filter_append]
  have h1 : g.sprites.filter (fun id => heapFlag (g.addSprite A nx ny).heap id) =
      g.sprites.filter (fun id => heapFlag g.heap id) := by
    apply List.filter_congr
    intro x hx
    exact addSprite_flag_old g A nx ny x (hWF.1 x hx)
  have h2 : [g.heap.length].filter (fun id => heapFlag (g.addSprite A nx ny).heap id) = [] := by
    rw [List.filter_eq_nil_iff]
    intro a ha
    rw [List.mem_singleton.mp ha]
    show ¬ (heapFlag (g.addSprite A nx ny).heap g.heap.length = true)
    rw [addSprite_flag_new]
    simp
  rw [h1, h2, List.append_nil]

theorem addSprite_inv (g : Game) (A : Assets) (nx ny : Int)
    (hWF : WF g) (h : ChosenInv g) : ChosenInv (g.addSprite A nx ny) := by
  obtain ⟨hlen, hmatch⟩ := h
  have hids := addSprite_chosenIds g A nx ny hWF
  refine ⟨by rw [hids]; exact hlen, ?_⟩
  rw [addSprite_ChosenSprite]
  cases hc : g.ChosenSprite with
  | none => rw [hc] at hmatch; rw [hids]; exact hmatch
  | some c => rw [hc] at hmatch; rw [hids]; exact hmatch

/-! ### `updateStroke` lemmas -/

theorem eraseIdx_indexOf (l : List Nat) (id : Nat) :
    l.eraseIdx (l.indexOf id) = l.erase id := by
  induction l with
  | nil => rfl
  | cons a t ih =>
    by_cases hab : a = id
    · subst hab
      rw [List.indexOf_cons_self, List.eraseIdx_cons_zero, List.erase_cons_head]
    · rw [List.indexOf_cons_ne t hab, Nat.succ_eq_add_one, List.eraseIdx_cons_succ,
        List.erase_cons_tail (by simp [hab]), ih]

theorem erase_append_perm (l : List Nat) (id : Nat) (h : id ∈ l) :
    (l.erase id ++ [id]).Perm l :=
  (List.perm_append_singleton id (l.erase id)).trans (List.perm_cons_erase h).symm

theorem updateStroke_props (g : Game) (st : Stroke) (inp : Input) (g' : Game) (st' : Stroke)
    (h : g.updateStroke st inp = some (g', st')) :
    g'.sprites.Perm g.sprites ∧ (∀ j, heapFlag g'.heap j = heapFlag g.heap j) ∧
    g'.heap.length = g.heap.length ∧ g'.ChosenSprite = g.ChosenSprite ∧
    g'.strokes = g.strokes := by
  by_cases hrel : (strokeStep st inp).released = false
  · simp only [Game.updateStroke, hrel, if_pos, Option.some.injEq, Prod.mk.injEq] at h
    obtain ⟨rfl, -⟩ := h
    exact ⟨List.Perm.refl _, fun j => rfl, rfl, rfl, rfl⟩
  · have hrel' : (strokeStep st inp).released = true := by
      revert hrel
      cases (strokeStep st inp).released <;> simp
    cases hdrag : (strokeStep st inp).draggingObject with
    | none =>
      simp only [Game.updateStroke, hrel', hdrag, Option.some.injEq, Prod.mk.injEq,
        Bool.true_eq_false, if_neg, reduceCtorEq, not_false_eq_true] at h
      obtain ⟨rfl, -⟩ := h
      exact ⟨List.Perm.refl _, fun j => rfl, rfl, rfl, rfl⟩
    | some id =>
      cases hheap : g.heap[id]? with
      | none =>
        simp only [Game.updateStroke, hrel', hdrag, hheap, Bool.true_eq_false, if_neg,
          reduceCtorEq, not_false_eq_true] at h
      | some s =>
        by_cases hidx : g.sprites.indexOf id < g.sprites.length
        · have hmem : id ∈ g.sprites := List.indexOf_lt_length.mp hidx
          simp only [Game.updateStroke, hrel', hdrag, hheap, hidx, Bool.true_eq_false,
            if_neg, if_pos, reduceCtorEq, not_false_eq_true, Option.some.injEq,
            Prod.mk.injEq] at h
          obtain ⟨hg, -⟩ := h
          subst hg
          refine ⟨?_, ?_, ?_, rfl, rfl⟩
          · show (g.sprites.eraseIdx (g.sprites.indexOf id) ++ [id]).Perm g.sprites
            rw [eraseIdx_indexOf]
            exact erase_append_perm g.sprites id hmem
          · intro j
            show heapFlag (g.heap.set id _) j = heapFlag g.heap j
            by_cases hji : id = j
            · subst hji
              rw [heapFlag_def, heapFlag_def, List.getElem?_set_self', hheap]
              rfl
            · rw [heapFlag_def, heapFlag_def, List.getElem?_set_ne hji]
          · exact List.length_set g.heap id _
        · simp only [Game.updateStroke, hrel', hdrag, hheap, hidx, Bool.true_eq_false,
            if_neg, reduceCtorEq, not_false_eq_true] at h

/-! ### `runStrokes` lemmas -/

theorem runStrokes_state (inp : Input) (pending : List Stroke) :
    ∀ (g : Game) (acc : List Stroke) (g' : Game),
      runStrokes inp g pending acc = some g' →
      g'.sprites.Perm g.sprites ∧ (∀ j, heapFlag g'.heap j = heapFlag g.heap j) ∧
      g'.heap.length = g.heap.length ∧ g'.ChosenSprite = g.ChosenSprite := by
  induction pending with
  | nil =>
    intro g acc g' h
    rw [runStrokes, Option.some.injEq] at h
    subst h
    exact ⟨List.Perm.refl _, fun j => rfl, rfl, rfl⟩
  | cons st rest ih =>
    intro g acc g' h
    rw [runStrokes] at h
    cases hup : g.updateStroke st inp with
    | none => rw [hup] at h; cases h
    | some p =>
      obtain ⟨g2, st2⟩ := p
      have hprops := updateStroke_props g st inp g2 st2 hup
      rw [hup] at h
      dsimp only at h
      by_cases hr : st2.released = true
      · rw [if_pos hr] at h
        obtain ⟨hp, hf, hl, hc⟩ := ih g2 acc g' h
        exact ⟨hp.trans hprops.1, fun j => (hf j).trans (hprops.2.1 j),
          hl.trans hprops.2.2.1, hc.trans hprops.2.2.2.1⟩
      · rw [if_neg hr] at h
        obtain ⟨hp, hf, hl, hc⟩ := ih g2 (acc ++ [st2]) g' h
        exact ⟨hp.trans hprops.1, fun j => (hf j).trans (hprops.2.1 j),
          hl.trans hprops.2.2.1, hc.trans hprops.2.2.2.1⟩

theorem runStrokes_kept (inp : Input) (pending : List Stroke) :
    ∀ (g : Game) (acc : List Stroke) (g' : Game),
      runStrokes inp g pending acc = some g' →
      (∀ st ∈ acc, st.released = false) →
      ∀ st ∈ g'.strokes, st.released = false := by
  induction pending with
  | nil =>
    intro g acc g' h hacc
    rw [runStrokes, Option.some.injEq] at h
    subst h
    exact hacc
  | cons st rest ih =>
    intro g acc g' h hacc
    rw [runStrokes] at h
    cases hup : g.updateStroke st inp with
    | none => rw [hup] at h; cases h
    | some p =>
      obtain ⟨g2, st2⟩ := p
      rw [hup] at h
      dsimp only at h
      by_cases hr : st2.released = true
      · rw [if_pos hr] at h
        exact ih g2 acc g' h hacc
      · rw [if_neg hr] at h
        refine ih g2 (acc ++ [st2]) g' h ?_
        intro u hu
        rcases List.mem_append.mp hu with hm | hm
        · exact hacc u hm
        · rw [List.mem_singleton.mp hm]
          revert hr
          cases st2.released <;> simp

/-! ### `refreshImages` lemmas -/

theorem refreshImages_sprites (g : Game) (A : Assets) :
    (g.refreshImages A).sprites = g.sprites := rfl

theorem refreshImages_strokes (g : Game) (A : Assets) :
    (g.refreshImages A).strokes = g.strokes := rfl

theorem refreshImages_ChosenSprite (g : Game) (A : Assets) :
    (g.refreshImages A).ChosenSprite = g.ChosenSprite := rfl

theorem refreshImages_heapLength (g : Game) (A : Assets) :
    (g.refreshImages A).heap.length = g.heap.length := by
  refine foldl_length _ ?_ g.sprites g.heap
  intro heap id
  by_cases hd : id ∈ draggingIds g.strokes
  · simp [hd]
  · simp [hd, length_setAt]

theorem refreshImages_flag (g : Game) (A : Assets) (j : Nat) :
    heapFlag (g.refreshImages A).heap j = heapFlag g.heap j := by
  refine foldl_heapFlag _ ?_ g.sprites g.heap j
  intro heap id j
  by_cases hd : id ∈ draggingIds g.strokes
  · simp [hd]
  · simp only [hd, if_neg, not_false_eq_true]
    exact heapFlag_setAt heap id _ j (fun s => rfl)

/-! ### preservation of well-formedness and the chosen invariant -/

theorem good_ite {c : Prop} [Decidable c] {a b : Game}
    (ha : WF a ∧ ChosenInv a) (hb : WF b ∧ ChosenInv b) :
    WF (if c then a else b) ∧ ChosenInv (if c then a else b) := by
  split
  · exact ha
  · exact hb

theorem good_handlePress (g : Game) (src : StrokeSource) (pos : Int × Int)
    (h : WF g ∧ ChosenInv g) :
    WF (g.handlePress src pos) ∧ ChosenInv (g.handlePress src pos) :=
  ⟨handlePress_WF g src pos h.1, handlePress_inv g src pos h.1⟩

theorem good_addSprite (g : Game) (A : Assets) (nx ny : Int)
    (h : WF g ∧ ChosenInv g) :
    WF (g.addSprite A nx ny) ∧ ChosenInv (g.addSprite A nx ny) :=
  ⟨addSprite_WF g A nx ny h.1, addSprite_inv g A nx ny h.1 h.2⟩

theorem good_mapChosen (g : Game) (f : Sprite → Sprite)
    (hf : ∀ s, (f s).chosen = s.chosen) (h : WF g ∧ ChosenInv g) :
    WF (g.mapChosen f) ∧ ChosenInv (g.mapChosen f) := by
  refine ⟨wf_transport g _ (mapChosen_sprites g f) (mapChosen_heapLength g f) h.1, ?_⟩
  exact chosenInv_transport g (g.mapChosen f)
    (by rw [mapChosen_sprites]) (mapChosen_flag g f hf) (mapChosen_ChosenSprite g f) h.2

theorem good_refreshImages (g : Game) (A : Assets) (h : WF g ∧ ChosenInv g) :
    WF (g.refreshImages A) ∧ ChosenInv (g.refreshImages A) := by
  refine ⟨wf_transport g _ (refreshImages_sprites g A) (refreshImages_heapLength g A) h.1, ?_⟩
  exact chosenInv_transport g (g.refreshImages A)
    (by rw [refreshImages_sprites]) (refreshImages_flag g A) (refreshImages_ChosenSprite g A) h.2

theorem good_touchFold (inp : Input) (ids : List Int) :
    ∀ g : Game, WF g ∧ ChosenInv g →
      WF (ids.foldl (fun gg id => gg.handlePress (.touch id) (inp.touchPos id)) g) ∧
      ChosenInv (ids.foldl (fun gg id => gg.handlePress (.touch id) (inp.touchPos id)) g) := by
  induction ids with
  | nil => intro g hg; exact hg
  | cons a t ih =>
    intro g hg
    rw [List.foldl_cons]
    exact ih _ (good_handlePress _ _ _ hg)

theorem good_pressEvents (g : Game) (inp : Input) (hg : WF g ∧ ChosenInv g) :
    WF (g.pressEvents inp) ∧ ChosenInv (g.pressEvents inp) := by
  unfold Game.pressEvents
  exact good_touchFold inp inp.touchPressed _ (good_ite (good_handlePress _ _ _ hg) hg)

theorem good_keyEvents (g : Game) (A : Assets) (inp : Input) (hg : WF g ∧ ChosenInv g) :
    WF (g.keyEvents A inp) ∧ ChosenInv (g.keyEvents A inp) := by
  unfold Game.keyEvents
  refine good_ite (good_mapChosen _ _ (fun s => rfl) ?_) ?_ <;>
  refine good_ite (good_mapChosen _ _ (fun s => rfl) ?_) ?_ <;>
  refine good_ite (good_mapChosen _ _ (fun s => rfl) ?_) ?_ <;>
  refine good_ite (good_mapChosen _ _ (fun s => rfl) ?_) ?_ <;>
  refine good_ite (good_mapChosen _ _ (fun s => rfl) ?_) ?_ <;>
  refine good_ite (good_mapChosen _ _ (fun s => rfl) ?_) ?_ <;>
  refine good_ite (good_addSprite _ _ _ _ ?_) ?_ <;>
  exact hg

theorem good_processStrokes (g : Game) (inp : Input) (g' : Game)
    (h : g.processStrokes inp = some g') (hg : WF g ∧ ChosenInv g) :
    WF g' ∧ ChosenInv g' := by
  obtain ⟨hperm, hflag, hlen, hcs⟩ := runStrokes_state inp g.strokes g [] g' h
  obtain ⟨⟨hvalid, hfull, hnd⟩, hinv⟩ := hg
  refine ⟨⟨?_, ?_, ?_⟩, ?_⟩
  · intro id hid
    rw [hlen]
    exact hvalid id (hperm.mem_iff.mp hid)
  · intro i hi
    rw [hlen] at hi
    exact hperm.mem_iff.mpr (hfull i hi)
  · exact (hperm.symm).nodup hnd
  · exact chosenInv_transport g g' hperm hflag hcs hinv

theorem update_good (g : Game) (A : Assets) (inp : Input) (g' : Game)
    (h : g.update A inp = some g') (hg : WF g ∧ ChosenInv g) :
    WF g' ∧ ChosenInv g' := by
  unfold Game.update at h
  cases hps : ((g.pressEvents inp).keyEvents A inp).processStrokes inp with
  | none => rw [hps] at h; cases h
  | some gA =>
    rw [hps] at h
    dsimp only at h
    rw [Option.some.injEq] at h
    subst h
    have hgA : WF gA ∧ ChosenInv gA :=
      good_processStrokes _ inp gA hps
        (good_keyEvents _ A inp (good_pressEvents g inp hg))
    exact good_ite hgA (good_refreshImages gA A hgA)

theorem initGame_good (A : Assets) (x0 y0 x1 y1 : Int) :
    WF (initGame A x0 y0 x1 y1) ∧ ChosenInv (initGame A x0 y0 x1 y1) := by
  refine ⟨⟨?_, ?_, ?_⟩, ?_⟩
  · intro id hid
    have h2 : id = 0 ∨ id = 1 := by simpa [initGame] using hid
    rw [show (initGame A x0 y0 x1 y1).heap.length = 2 from rfl]
    omega
  · intro i hi
    rw [show (initGame A x0 y0 x1 y1).heap.length = 2 from rfl] at hi
    show i ∈ [0, 1]
    simp only [List.mem_cons, List.mem_singleton, List.not_mem_nil, or_false]
    omega
  · show ([0, 1] : List Nat).Nodup
    decide
  · exact chosenInv_of_nil _ rfl rfl

theorem reachable_good (A : Assets) (g : Game) (h : Reachable A g) :
    WF g ∧ ChosenInv g := by
  induction h with
  | start x0 y0 x1 y1 => exact initGame_good A x0 y0 x1 y1
  | step g inp g' hreach hstep ih => exact update_good g A inp g' hstep ih

/-! ### field bookkeeping through the frame phases -/

theorem ite_mapChosen_sprites (c : Prop) [Decidable c] (x : Game) (f : Sprite → Sprite) :
    (if c then x.mapChosen f else x).sprites = x.sprites := by
  split <;> rfl

theorem ite_mapChosen_strokes (c : Prop) [Decidable c] (x : Game) (f : Sprite → Sprite) :
    (if c then x.mapChosen f else x).strokes = x.strokes := by
  split <;> rfl

theorem touchFold_sprites (inp : Input) (ids : List Int) :
    ∀ g : Game,
      (ids.foldl (fun gg id => gg.handlePress (.touch id) (inp.touchPos id)) g).sprites =
        g.sprites := by
  induction ids with
  | nil => intro g; rfl
  | cons a t ih =>
    intro g
    rw [List.foldl_cons, ih, handlePress_sprites]

theorem pressEvents_sprites (g : Game) (inp : Input) :
    (g.pressEvents inp).sprites = g.sprites := by
  unfold Game.pressEvents
  rw [touchFold_sprites]
  split
  · exact handlePress_sprites g _ _
  · rfl

theorem keyEvents_sprites (g : Game) (A : Assets) (inp : Input) :
    (g.keyEvents A inp).sprites =
      if inp.keyA = true then g.sprites ++ [g.heap.length] else g.sprites := by
  unfold Game.keyEvents
  rw [ite_mapChosen_sprites, ite_mapChosen_sprites, ite_mapChosen_sprites,
    ite_mapChosen_sprites, ite_mapChosen_sprites, ite_mapChosen_sprites]
  split
  · exact addSprite_sprites g A inp.newX inp.newY
  · rfl

theorem keyEvents_strokes (g : Game) (A : Assets) (inp : Input) :
    (g.keyEvents A inp).strokes = g.strokes := by
  unfold Game.keyEvents
  rw [ite_mapChosen_strokes, ite_mapChosen_strokes, ite_mapChosen_strokes,
    ite_mapChosen_strokes, ite_mapChosen_strokes, ite_mapChosen_strokes]
  split
  · exact addSprite_strokes g A inp.newX inp.newY
  · rfl

theorem game_eta (g : Game) (h : g.strokes = []) :
    { g with strokes := ([] : List Stroke) } = g := by
  obtain ⟨he, sp, strokes, cs⟩ := g
  dsimp only at h
  subst h
  rfl

/-- A frame with only key events and no live strokes reduces to the
key-event phase. -/
theorem update_pressOnly (g : Game) (A : Assets) (p n u d r l : Bool)
    (hstrokes : g.strokes = []) :
    g.update A (pressOnly p n u d r l) = some (g.keyEvents A (pressOnly p n u d r l)) := by
  have hpe : g.pressEvents (pressOnly p n u d r l) = g := rfl
  unfold Game.update
  rw [hpe]
  have hG : (g.keyEvents A (pressOnly p n u d r l)).strokes = [] := by
    rw [keyEvents_strokes]
    exact hstrokes
  have hps : (g.keyEvents A (pressOnly p n u d r l)).processStrokes (pressOnly p n u d r l) =
      some (g.keyEvents A (pressOnly p n u d r l)) := by
    unfold Game.processStrokes
    rw [hG, runStrokes, game_eta _ hG]
  rw [hps]
  rfl

/-! ### claim theorems -/

theorem applyUpdates_cons (st : Stroke) (a : Bool × Int × Int) (t : List (Bool × Int × Int)) :
    applyUpdates st (a :: t) = applyUpdates (st.Update a.1 (a.2.1, a.2.2)) t := rfl

theorem applyUpdates_init (st : Stroke) (l : List (Bool × Int × Int)) :
    (applyUpdates st l).initX = st.initX ∧ (applyUpdates st l).initY = st.initY := by
  induction l generalizing st with
  | nil => exact ⟨rfl, rfl⟩
  | cons a t ih =>
    rw [applyUpdates_cons]
    exact ⟨((ih _).1).trans (update_initX st a.1 (a.2.1, a.2.2)),
      ((ih _).2).trans (update_initY st a.1 (a.2.1, a.2.2))⟩

/-- C2: for a stroke created by `NewStroke` at pointer-down position `p`
and updated by any sequence of per-frame samples, `Stroke.PositionDiff`
is exactly the current position minus the origin `p` recorded at
pointer-down. -/
theorem positionDiff_current_minus_origin (src : StrokeSource) (p : Int × Int)
    (samples : List (Bool × Int × Int)) :
    (applyUpdates (NewStroke src p) samples).PositionDiff =
      ((applyUpdates (NewStroke src p) samples).currentX - p.1,
       (applyUpdates (NewStroke src p) samples).currentY - p.2) := by
  rw [Stroke.PositionDiff, (applyUpdates_init (NewStroke src p) samples).1,
    (applyUpdates_init (NewStroke src p) samples).2]
  rfl

/-- C8: the physics formulas are pure functions of their arguments, and
the zero-distance case is unguarded: two sprites at the same position
have `distance` exactly 0, and `force` is literally the Coulomb quotient
whose denominator `d * d` is then 0 — there is no guard or error
branch. -/
theorem physics_zero_distance_unguarded (particle1 particle2 : Sprite)
    (hx : particle1.x = particle2.x) (hy : particle1.y = particle2.y) :
    distance particle1 particle2 = 0 ∧
    force particle1 particle2 =
      k * ((particle1.charge : ℝ) * (particle2.charge : ℝ)) /
        (distance particle1 particle2 * distance particle1 particle2) ∧
    distance particle1 particle2 * distance particle1 particle2 = 0 := by
  have hd : distance particle1 particle2 = 0 := by
    simp [distance, hx, hy]
  exact ⟨hd, rfl, by rw [hd]; ring⟩

/-- C9: whenever the sprite's bitmap fits the screen, `Sprite.MoveBy`
clamps the resulting position into the screen for every displacement. -/
theorem moveBy_stays_in_bounds (s : Sprite) (dx dy : Int)
    (hw : (s.image.width : Int) ≤ screenWidth) (hh : (s.image.height : Int) ≤ screenHeight) :
    0 ≤ (s.MoveBy dx dy).x ∧ (s.MoveBy dx dy).x ≤ screenWidth - (s.image.width : Int) ∧
    0 ≤ (s.MoveBy dx dy).y ∧ (s.MoveBy dx dy).y ≤ screenHeight - (s.image.height : Int) := by
  unfold Sprite.MoveBy
  dsimp only
  split_ifs <;> refine ⟨?_, ?_, ?_, ?_⟩ <;> omega

/-- C3: `Game.spriteAt` returns nil exactly when no sprite of the
z-order list has an opaque pixel at the point, and when it returns a
sprite that sprite is the last (topmost) hit of the list: every sprite
after it in render order misses the point. -/
theorem spriteAt_picks_topmost (g : Game) (x y : Int) :
    (g.spriteAt x y = none ↔ ∀ id ∈ g.sprites, g.spriteInAt id x y = false) ∧
    (∀ id : Nat, g.spriteAt x y = some id →
      ∃ l1 l2, g.sprites = l1 ++ id :: l2 ∧ g.spriteInAt id x y = true ∧
        ∀ j ∈ l2, g.spriteInAt j x y = false) := by
  constructor
  · rw [Game.spriteAt, List.find?_eq_none]
    constructor
    · intro h id hid
      have h2 := h id (List.mem_reverse.mpr hid)
      revert h2
      cases g.spriteInAt id x y <;> simp
    · intro h id hid
      rw [h id (List.mem_reverse.mp hid)]
      simp
  · intro id hfind
    have hhit : g.spriteInAt id x y = true := spriteAt_hit hfind
    rw [Game.spriteAt] at hfind
    obtain ⟨l1, l2, hsplit, hfalse⟩ := find?_split _ _ _ hfind
    refine ⟨l2.reverse, l1.reverse, ?_, hhit, ?_⟩
    · have h2 : g.sprites = g.sprites.reverse.reverse := (List.reverse_reverse _).symm
      rw [h2, hsplit, List.reverse_append, List.reverse_cons, List.append_assoc,
        List.singleton_append]
    · intro j hj
      exact hfalse j (List.mem_reverse.mp hj)

/-- C1: when `Game.updateStroke` processes a released stroke that drags
sprite `id`, the result moves exactly that sprite, once, by the
stroke's position delta (`heap.set id (MoveBy …)` leaves every other
sprite untouched), promotes it to the last position of the z-order list
with the other sprites' relative order intact (`erase id ++ [id]`), and
detaches the stroke's dragging object. -/
theorem updateStroke_commits_once (g : Game) (st : Stroke) (inp : Input) (id : Nat) (s : Sprite)
    (hrel : (strokeStep st inp).released = true)
    (hdrag : st.draggingObject = some id)
    (hs : g.heap[id]? = some s)
    (hmem : id ∈ g.sprites) :
    g.updateStroke st inp = some
      ({ g with
          heap := g.heap.set id
            (s.MoveBy (strokeStep st inp).PositionDiff.1 (strokeStep st inp).PositionDiff.2),
          sprites := g.sprites.erase id ++ [id] },
        { strokeStep st inp with draggingObject := none }) ∧
    (g.heap.set id
        (s.MoveBy (strokeStep st inp).PositionDiff.1 (strokeStep st inp).PositionDiff.2))[id]? =
      some (s.MoveBy (strokeStep st inp).PositionDiff.1 (strokeStep st inp).PositionDiff.2) ∧
    (∀ j, j ≠ id →
      (g.heap.set id
        (s.MoveBy (strokeStep st inp).PositionDiff.1 (strokeStep st inp).PositionDiff.2))[j]? =
        g.heap[j]?) := by
  have hidx : g.sprites.indexOf id < g.sprites.length := List.indexOf_lt_length.mpr hmem
  have hdrag1 : (strokeStep st inp).draggingObject = some id := by
    rw [strokeStep, update_draggingObject]
    exact hdrag
  refine ⟨?_, ?_, ?_⟩
  · simp only [Game.updateStroke, hrel, hdrag1, hs, hidx, Bool.true_eq_false, if_neg,
      if_pos, reduceCtorEq, not_false_eq_true, Option.some.injEq, Prod.mk.injEq]
    rw [eraseIdx_indexOf]
    simp
  · rw [List.getElem?_set_self', hs]
    rfl
  · intro j hj
    exact List.getElem?_set_ne (Ne.symm hj)

/-- C5: the `KeyP`/`KeyN` blocks change the charge of exactly the
sprites whose `chosen` flag is set, by exactly `+0.1` or `-0.1`; a
sprite not flagged chosen is returned with all fields (charge,
position, name, image) unchanged; and a frame whose only event is such
a key press does exactly this block. -/
theorem chargeAdjust_only_chosen (g : Game) (id : Nat) (s : Sprite)
    (hnd : g.sprites.Nodup) (hs : g.heap[id]? = some s) :
    (s.chosen = true → id ∈ g.sprites →
      (g.mapChosen (fun t => { t with charge := t.charge + 1/10 })).heap[id]? =
          some { s with charge := s.charge + 1/10 } ∧
      (g.mapChosen (fun t => { t with charge := t.charge - 1/10 })).heap[id]? =
          some { s with charge := s.charge - 1/10 }) ∧
    (s.chosen = false →
      (g.mapChosen (fun t => { t with charge := t.charge + 1/10 })).heap[id]? = some s ∧
      (g.mapChosen (fun t => { t with charge := t.charge - 1/10 })).heap[id]? = some s) ∧
    (∀ A : Assets, g.strokes = [] →
      g.update A (pressOnly true false false false false false) =
          some (g.mapChosen (fun t => { t with charge := t.charge + 1/10 })) ∧
      g.update A (pressOnly false true false false false false) =
          some (g.mapChosen (fun t => { t with charge := t.charge - 1/10 }))) := by
  refine ⟨?_, ?_, ?_⟩
  · intro hc hmemb
    constructor
    · show (g.sprites.foldl (chooseStep _) g.heap)[id]? = _
      rw [foldl_chooseStep_mem _ g.sprites g.heap id hnd hmemb, hs]
      simp [hc]
    · show (g.sprites.foldl (chooseStep _) g.heap)[id]? = _
      rw [foldl_chooseStep_mem _ g.sprites g.heap id hnd hmemb, hs]
      simp [hc]
  · intro hc
    constructor
    · show (g.sprites.foldl (chooseStep _) g.heap)[id]? = some s
      by_cases hmemb : id ∈ g.sprites
      · rw [foldl_chooseStep_mem _ g.sprites g.heap id hnd hmemb, hs]
        simp [hc]
      · rw [foldl_chooseStep_not_mem _ g.sprites g.heap id hmemb]
        exact hs
    · show (g.sprites.foldl (chooseStep _) g.heap)[id]? = some s
      by_cases hmemb : id ∈ g.sprites
      · rw [foldl_chooseStep_mem _ g.sprites g.heap id hnd hmemb, hs]
        simp [hc]
      · rw [foldl_chooseStep_not_mem _ g.sprites g.heap id hmemb]
        exact hs
  · intro A hstrokes
    constructor
    · rw [update_pressOnly g A true false false false false false hstrokes]
      rfl
    · rw [update_pressOnly g A false true false false false false hstrokes]
      rfl

/-- C10: the arrow-key blocks move each chosen sprite by exactly a
tenth of the screen size (80 or 54 pixels) with no clamping: the new
coordinate is the plain sum, so a nudge from `x < 80` lands at a
negative `x`, outside the `0 ≤ x` bound that `MoveBy` enforces; a frame
whose only event is an arrow key does exactly this block. -/
theorem arrow_nudge_unclamped (g : Game) (id : Nat) (s : Sprite)
    (hnd : g.sprites.Nodup) (hs : g.heap[id]? = some s) (hmemb : id ∈ g.sprites)
    (hc : s.chosen = true) :
    (g.mapChosen (fun t => { t with y := t.y - screenHeight / 10 })).heap[id]? =
        some { s with y := s.y - screenHeight / 10 } ∧
    (g.mapChosen (fun t => { t with y := t.y + screenHeight / 10 })).heap[id]? =
        some { s with y := s.y + screenHeight / 10 } ∧
    (g.mapChosen (fun t => { t with x := t.x + screenWidth / 10 })).heap[id]? =
        some { s with x := s.x + screenWidth / 10 } ∧
    (g.mapChosen (fun t => { t with x := t.x - screenWidth / 10 })).heap[id]? =
        some { s with x := s.x - screenWidth / 10 } ∧
    screenWidth / 10 = 80 ∧ screenHeight / 10 = 54 ∧
    (s.x < screenWidth / 10 → s.x - screenWidth / 10 < 0) ∧
    (∀ A : Assets, g.strokes = [] →
      g.update A (pressOnly false false false false false true) =
        some (g.mapChosen (fun t => { t with x := t.x - screenWidth / 10 }))) := by
  refine ⟨?_, ?_, ?_, ?_, by decide, by decide, ?_, ?_⟩
  · show (g.sprites.foldl (chooseStep _) g.heap)[id]? = _
    rw [foldl_chooseStep_mem _ g.sprites g.heap id hnd hmemb, hs]
    simp [hc]
  · show (g.sprites.foldl (chooseStep _) g.heap)[id]? = _
    rw [foldl_chooseStep_mem _ g.sprites g.heap id hnd hmemb, hs]
    simp [hc]
  · show (g.sprites.foldl (chooseStep _) g.heap)[id]? = _
    rw [foldl_chooseStep_mem _ g.sprites g.heap id hnd hmemb, hs]
    simp [hc]
  · show (g.sprites.foldl (chooseStep _) g.heap)[id]? = _
    rw [foldl_chooseStep_mem _ g.sprites g.heap id hnd hmemb, hs]
    simp [hc]
  · intro h
    have h80 : screenWidth / 10 = 80 := by decide
    rw [h80] at h ⊢
    omega
  · intro A hstrokes
    rw [update_pressOnly g A false false false false false true hstrokes]
    rfl

/-- C4: in every state reachable from the initial state by per-frame
update steps, at most one sprite of the z-order list has its `chosen`
flag set, and the list of chosen sprites is exactly `[ChosenSprite]`
(or empty when `ChosenSprite` is nil). -/
theorem reachable_chosen_invariant (A : Assets) (g : Game) (h : Reachable A g) :
    ChosenInv g :=
  (reachable_good A g h).2

/-- C6: a successful frame step never destroys a sprite: every sprite
of the z-order list before the step is still in it after, and the
list's length grows by one exactly when the add key was pressed and is
unchanged otherwise. -/
theorem update_never_destroys (g : Game) (A : Assets) (inp : Input) (g' : Game)
    (h : g.update A inp = some g') :
    (∀ id ∈ g.sprites, id ∈ g'.sprites) ∧
    g'.sprites.length =
      (if inp.keyA = true then g.sprites.length + 1 else g.sprites.length) := by
  unfold Game.update at h
  cases hps : ((g.pressEvents inp).keyEvents A inp).processStrokes inp with
  | none => rw [hps] at h; cases h
  | some gA =>
    rw [hps] at h
    dsimp only at h
    rw [Option.some.injEq] at h
    subst h
    have hperm := (runStrokes_state inp _ _ [] gA hps).1
    have hKE := keyEvents_sprites (g.pressEvents inp) A inp
    have hPE := pressEvents_sprites g inp
    have hsp : (if inp.drawingSkipped = true then gA else gA.refreshImages A).sprites =
        gA.sprites := by
      split
      · rfl
      · exact refreshImages_sprites gA A
    constructor
    · intro id hid
      rw [hsp]
      refine hperm.mem_iff.mpr ?_
      rw [hKE]
      split
      · exact List.mem_append_left _ (hPE ▸ hid)
      · exact hPE ▸ hid
    · rw [hsp, hperm.length_eq, hKE]
      split
      · rw [List.length_append, hPE]
        rfl
      · rw [hPE]

/-- C7: a stroke is immutable once released (`Stroke.Update` returns it
unchanged), and after any successful frame step every stroke still in
the stroke set is unreleased — a stroke observed as released during the
frame's stroke loop is deleted and never survives to the next frame. -/
theorem released_strokes_discarded (g : Game) (A : Assets) (inp : Input) (g' : Game)
    (h : g.update A inp = some g') :
    (∀ st ∈ g'.strokes, st.released = false) ∧
    (∀ (st : Stroke) (b : Bool) (p : Int × Int), st.released = true → st.Update b p = st) := by
  constructor
  · unfold Game.update at h
    cases hps : ((g.pressEvents inp).keyEvents A inp).processStrokes inp with
    | none => rw [hps] at h; cases h
    | some gA =>
      rw [hps] at h
      dsimp only at h
      rw [Option.some.injEq] at h
      subst h
      have hkept := runStrokes_kept inp _ _ [] gA hps (by intro u hu; cases hu)
      intro st hst
      have hstr : (if inp.drawingSkipped = true then gA else gA.refreshImages A).strokes =
          gA.strokes := by
        split
        · rfl
        · exact refreshImages_strokes gA A
      rw [hstr] at hst
      exact hkept st hst
  · intro st b p hrel
    rw [Stroke.Update, if_pos hrel]

/-! ### witnesses -/

theorem updateStroke_commits_once_witness :
    gW.updateStroke stW inpW = some
      ({ gW with
          heap := gW.heap.set 0
            (s0W.MoveBy (strokeStep stW inpW).PositionDiff.1 (strokeStep stW inpW).PositionDiff.2),
          sprites := gW.sprites.erase 0 ++ [0] },
        { strokeStep stW inpW with draggingObject := none }) :=
  (updateStroke_commits_once gW stW inpW 0 s0W (by decide) rfl rfl (by decide)).1

theorem spriteAt_picks_topmost_witness : gW.spriteAt 500 500 = none :=
  ((spriteAt_picks_topmost gW 500 500).1).mpr (by decide)

theorem reachable_chosen_invariant_witness : ChosenInv (initGame assetsW 1 2 3 4) :=
  reachable_chosen_invariant assetsW _ (Reachable.start 1 2 3 4)

theorem chargeAdjust_only_chosen_witness :
    (gW.mapChosen (fun t => { t with charge := t.charge + 1/10 })).heap[0]? =
      some { s0W with charge := s0W.charge + 1/10 } :=
  (((chargeAdjust_only_chosen gW 0 s0W (by decide) rfl).1) rfl (by decide)).1

theorem update_never_destroys_witness :
    gW.sprites.length =
      (if inpW.keyA = true then gW.sprites.length + 1 else gW.sprites.length) :=
  (update_never_destroys gW assetsW inpW gW (by rfl)).2

theorem released_strokes_discarded_witness : stW.Update false (5, 5) = stW :=
  (released_strokes_discarded gW assetsW inpW gW (by rfl)).2 stW false (5, 5) (by decide)

theorem physics_zero_distance_unguarded_witness : distance s0W s0W = 0 :=
  (physics_zero_distance_unguarded s0W s0W rfl rfl).1

theorem moveBy_stays_in_bounds_witness :
    0 ≤ (s1W.MoveBy 999 (-999)).x ∧
    (s1W.MoveBy 999 (-999)).x ≤ screenWidth - (s1W.image.width : Int) ∧
    0 ≤ (s1W.MoveBy 999 (-999)).y ∧
    (s1W.MoveBy 999 (-999)).y ≤ screenHeight - (s1W.image.height : Int) :=
  moveBy_stays_in_bounds s1W 999 (-999) (by decide) (by decide)

theorem arrow_nudge_unclamped_witness :
    (gW.mapChosen (fun t => { t with x := t.x - screenWidth / 10 })).heap[0]? =
      some { s0W with x := s0W.x - screenWidth / 10 } :=
  (arrow_nudge_unclamped gW 0 s0W (by decide) rfl (by decide) rfl).2.2.2.1

end EC
